import Mathlib

/-!
# Verification of the raincloud-plot pipeline (`RainCloudPlot4.0.py`)

Shallow embedding of the algorithmic core of the raincloud-plot generator:
the data reshaper (`df.select(columns).melt(...)`), the layout computations
(`group_positions`, the per-group violin / box / scatter trace `x` values),
and the statistics pass (`normality_results`, the pairwise loop building
`ttest_results` and `bayes_results`).

Values are modelled as rationals (`ℚ`); a table cell is `Option ℚ`, with
`none` standing for a missing value (null / NaN).  The numeric kernels of the
external statistics libraries (scipy, pingouin, pandas `describe`) are
abstracted as a record of pure functions (`StatKernels`); the control
structure around them — guards, loops, exception propagation, rounding,
ordering — is translated from the script itself.
-/

namespace RainCloud

/-- A table cell: `none` models a missing value (null in polars, NaN in pandas). -/
abbrev Cell := Option ℚ

/-- One column of the uploaded table: its header name and its cells. -/
abbrev Column := String × List Cell

/-- An uploaded wide table: ordered list of named columns (`df`). -/
structure RawTable where
  cols : List Column
deriving DecidableEq

/-- `MAX_COLUMNS = 20` (line 93 of the script). -/
def MAX_COLUMNS : ℕ := 20

/-- `columns = df.columns[:MAX_COLUMNS]` followed by `df.select(columns)`:
the first `MAX_COLUMNS` columns are kept, the rest are ignored. -/
def keptColumns (t : RawTable) : List Column :=
  t.cols.take MAX_COLUMNS

/-- Polars `melt(variable_name="Group", value_name="Value")` on the selected
columns: every cell of every kept column becomes one `(Group, Value)` record,
column by column in column order.  Missing cells are carried through as
`none` — polars `melt` does not drop nulls. -/
def melt (cols : List Column) : List (String × Cell) :=
  cols.flatMap (fun c => c.2.map (fun v => (c.1, v)))

/-- `df_melted = df.select(columns).melt(...)` (line 275). -/
def df_melted (t : RawTable) : List (String × Cell) :=
  melt (keptColumns t)

/-- `df_pd[df_pd["Group"] == g]["Value"]`: the melted `Value` series of one
group, missing values included. -/
def seriesFor (recs : List (String × Cell)) (g : String) : List Cell :=
  (recs.filter (fun r => r.1 = g)).map Prod.snd

/-- Pandas `.dropna()`: keep the non-missing values, in order. -/
def dropna (xs : List Cell) : List ℚ :=
  xs.filterMap id

/-- Helper for `unique()`: walk the list keeping the first occurrence of
each value, remembering the values already seen. -/
def uniqueAux (seen : List String) : List String → List String
  | [] => []
  | x :: xs =>
    if x ∈ seen then uniqueAux seen xs else x :: uniqueAux (x :: seen) xs

/-- Pandas `Series.unique()`: the distinct values in order of first
appearance. -/
def uniqueKeepFirst (l : List String) : List String :=
  uniqueAux [] l

/-- `group_names = df_pd["Group"].unique()` (line 419; the same expression
drives the plotting loop at line 295). -/
def group_names (t : RawTable) : List String :=
  uniqueKeepFirst ((df_melted t).map Prod.fst)

/-- The non-missing sample of one group:
`df_pd[df_pd["Group"] == g]["Value"].dropna()`. -/
def seriesOf (t : RawTable) (g : String) : List ℚ :=
  dropna (seriesFor (df_melted t) g)

-- ## Configuration and the layout engine

/-- The `Violin Direction` selectbox offers exactly `"Left"` and `"Right"`
(lines 162–167). -/
inductive ViolinDirection
  | Left
  | Right
deriving DecidableEq

/-- The `Select Statistical Test` selectbox offers exactly Welch's T-Test and
the Mann-Whitney U Test (lines 212–217). -/
inductive TestType
  | welch
  | mannWhitney
deriving DecidableEq

/-- The sidebar configuration values consumed by the plotting loop and the
statistics pass, one immutable snapshot per render. -/
structure Config where
  group_spacing : ℚ
  violin_box_gap : ℚ
  box_points_gap : ℚ
  point_jitter : ℚ
  violin_on : Bool
  box_on : Bool
  points_on : Bool
  violin_direction : ViolinDirection
  test_type : TestType

/-- `side = "negative" if violin_direction == "Left" else "positive"`
(line 302). -/
def side (violin_direction : ViolinDirection) : String :=
  if violin_direction = ViolinDirection.Left then "negative" else "positive"

/-- `jitter_direction = 1 if side == "negative" else -1` (line 333). -/
def jitter_direction (s : String) : ℤ :=
  if s = "negative" then 1 else -1

/-- `group_positions = [i * group_spacing for i in range(len(df_pd["Group"].unique()))]`
(line 293). -/
def group_positions (t : RawTable) (group_spacing : ℚ) : List ℚ :=
  (List.range (group_names t).length).map (fun i : ℕ => (i : ℚ) * group_spacing)

/-- The horizontal anchors and point positions emitted for one group by one
iteration of the plotting loop: the violin trace's `x` base, the box trace's
`x` base, and the scatter trace's per-point `x` values.  A field is `none`
when the corresponding element is disabled and its trace is not added. -/
structure GroupTraces where
  violin_x : Option ℚ
  box_x : Option ℚ
  points_x : Option (List ℚ)
deriving DecidableEq

/-- The non-jittered part of a group's traces (everything except the random
scatter positions). -/
def GroupTraces.nonJittered (tr : GroupTraces) : Option ℚ × Option ℚ :=
  (tr.violin_x, tr.box_x)

instance : Inhabited GroupTraces := ⟨⟨none, none, none⟩⟩

/-- One iteration of the plotting loop (lines 295–349) for a group whose
melted series has `yLen` entries, anchored at `x_base = group_positions[i]`.

* The Python local `side` is assigned only inside `if violin_on:`; it is
  modelled as an `Option String`, and reading it while unassigned is modelled
  as an `Except.error` (Python raises `NameError` there, aborting the pass).
* The box trace's `x` is `x_base + violin_box_gap` (line 321).
* The scatter trace's `x` is
  `x_base + violin_box_gap + box_points_gap * jitter_direction + jitter`
  with `jitter = point_jitter * (u - 0.5)` per point, where `u` is the
  per-point draw of `np.random.rand(len(y))` (lines 333–339), supplied here
  as the explicit random source `u : ℕ → ℚ`. -/
def buildGroupTraces (cfg : Config) (x_base : ℚ) (yLen : ℕ) (u : ℕ → ℚ) :
    Except String GroupTraces :=
  let sideVar : Option String :=
    if cfg.violin_on then some (side cfg.violin_direction) else none
  let violin_x : Option ℚ := if cfg.violin_on then some x_base else none
  let box_x : Option ℚ :=
    if cfg.box_on then some (x_base + cfg.violin_box_gap) else none
  if cfg.points_on then
    match sideVar with
    | none => Except.error "NameError: name side is not defined"
    | some s =>
        let dir : ℤ := jitter_direction s
        let pts := (List.range yLen).map (fun k =>
          x_base + cfg.violin_box_gap + cfg.box_points_gap * (dir : ℚ) +
            cfg.point_jitter * (u k - 1/2))
        Except.ok { violin_x := violin_x, box_x := box_x, points_x := some pts }
  else
    Except.ok { violin_x := violin_x, box_x := box_x, points_x := none }

/-- A `for` loop over a list collecting one result per element, where the
body may raise: the first uncaught exception aborts the remaining iterations
and no partial result survives. -/
def exceptMap {α β ε : Type} (f : α → Except ε β) : List α → Except ε (List β)
  | [] => Except.ok []
  | x :: xs =>
    match f x with
    | Except.error e => Except.error e
    | Except.ok y =>
      match exceptMap f xs with
      | Except.error e => Except.error e
      | Except.ok ys => Except.ok (y :: ys)

/-- The whole plotting loop `for i, group in enumerate(df_pd["Group"].unique())`
(line 295): one `GroupTraces` per group, in group order, with
`x_base = group_positions[i]` and `y` the group's melted series.  The random
source `u` supplies group `i`'s point draws as `u i`. -/
def buildFigure (cfg : Config) (t : RawTable) (u : ℕ → ℕ → ℚ) :
    Except String (List GroupTraces) :=
  exceptMap (fun gi =>
    buildGroupTraces cfg ((group_positions t cfg.group_spacing).getD gi.1 0)
      (seriesFor (df_melted t) gi.2).length (u gi.1))
    (group_names t).enum

-- ## The statistics engine

/-- Python `round(x, 4)`: round to 4 decimal digits. -/
def round4 (x : ℚ) : ℚ :=
  (round (x * 10000) : ℤ) / 10000

/-- One row of the pandas `describe()` table after the renaming of line 407:
Count, Mean, Std Dev, Min, quartiles, Max. -/
structure DescRow where
  count : ℕ
  mean : ℚ
  stdDev : ℚ
  min : ℚ
  pct25 : ℚ
  median : ℚ
  pct75 : ℚ
  max : ℚ
deriving DecidableEq

/-- The numeric kernels of the external statistics libraries, abstracted as
pure functions of the (already `dropna`'d) samples:

* `shapiro_pvalue` — `stats.shapiro(data).pvalue` (scipy);
* `anderson_crit2` — `stats.anderson(data).critical_values[2]` (scipy);
* `ttest_T` / `ttest_p` / `ttest_d` — the `T`, `p-val` and `cohen-d` cells of
  `pg.ttest(data1, data2, paired=False, alternative="two-sided")` (pingouin);
* `mwu_U` / `mwu_p` — the `U-val` and `p-val` cells of
  `pg.mwu(data1, data2, alternative="two-sided")` (pingouin);
* `bayesfactor_ttest` — `pg.bayesfactor_ttest(t, nx, ny, alternative="two-sided")`
  (pingouin), a function of the t-statistic and the two sample sizes;
* `describe` — the per-group row of
  `df_pd.groupby("Group")["Value"].describe()` (pandas).

Each is a deterministic function of its inputs, which is all the theorems
below rely on; the surrounding guards, loops, rounding and error propagation
are translated from the script. -/
structure StatKernels where
  shapiro_pvalue : List ℚ → ℚ
  anderson_crit2 : List ℚ → ℚ
  ttest_T : List ℚ → List ℚ → ℚ
  ttest_p : List ℚ → List ℚ → ℚ
  ttest_d : List ℚ → List ℚ → ℚ
  mwu_U : List ℚ → List ℚ → ℚ
  mwu_p : List ℚ → List ℚ → ℚ
  bayesfactor_ttest : ℚ → ℕ → ℕ → ℚ
  describe : List ℚ → DescRow

/-- `stats.shapiro(data)` (line 425): scipy raises
`ValueError("Data must be at least length 3.")` when the sample has fewer
than 3 observations; otherwise it returns a p-value (abstracted as the
kernel).  The script does not catch this exception. -/
def shapiro (K : StatKernels) (data : List ℚ) : Except String ℚ :=
  if data.length < 3 then Except.error "Data must be at least length 3."
  else Except.ok (K.shapiro_pvalue data)

/-- One row of the normality table (a dict appended at line 427). -/
structure NormRow where
  group : String
  shapiroWilkP : ℚ
  andersonDarlingP : ℚ
deriving DecidableEq

/-- The body of one iteration of the normality loop (lines 423–431):
`data = df_pd[df_pd["Group"] == group]["Value"].dropna()`, then Shapiro-Wilk
(which may raise) and Anderson-Darling, both rounded to 4 digits. -/
def normality_row (K : StatKernels) (t : RawTable) (g : String) :
    Except String NormRow := do
  let data := seriesOf t g
  let shapiro_p ← shapiro K data
  let ad_p := K.anderson_crit2 data
  Except.ok { group := g, shapiroWilkP := round4 shapiro_p,
              andersonDarlingP := round4 ad_p }

/-- `normality_results` (lines 422–432): one row per group, in group order.
There is no `try`/`except` around the loop body, so the first raising group
aborts the whole loop — modelled by `mapM` over `Except`. -/
def normality_results (K : StatKernels) (t : RawTable) :
    Except String (List NormRow) :=
  exceptMap (normality_row K t) (group_names t)

/-- A Welch's-test row: the dict of line 453 with columns
`Group 1`, `Group 2`, `T-stat`, `P-value`, `Cohen's d`. -/
structure WelchRow where
  group1 : String
  group2 : String
  tStat : ℚ
  pValue : ℚ
  cohensD : ℚ
deriving DecidableEq

/-- A Mann-Whitney row: the dict of line 476 with columns
`Group 1`, `Group 2`, `U-stat`, `P-value`. -/
structure MWURow where
  group1 : String
  group2 : String
  uStat : ℚ
  pValue : ℚ
deriving DecidableEq

/-- A Bayes-factor row: the dict of line 465 with columns
`Group 1`, `Group 2`, `Bayes Factor`. -/
structure BayesRow where
  group1 : String
  group2 : String
  bayesFactor : ℚ
deriving DecidableEq

/-- A row appended to `ttest_results`: the Welch branch appends a
`T-stat`/`Cohen's d` shaped dict, the Mann-Whitney branch a `U-stat` shaped
one.  The two shapes are the two constructors. -/
inductive TestRow
  | welch (r : WelchRow)
  | mwu (r : MWURow)
deriving DecidableEq

/-- The pair of group names of a `ttest_results` row. -/
def TestRow.groups : TestRow → String × String
  | .welch r => (r.group1, r.group2)
  | .mwu r => (r.group1, r.group2)

/-- The nested pair loop of lines 438–439:
`for i in range(len(group_names)): for j in range(i+1, len(group_names))`
enumerates the pairs `(names[i], names[j])` with `i < j`, in loop order. -/
def upairs : List String → List (String × String)
  | [] => []
  | x :: xs => xs.map (fun y => (x, y)) ++ upairs xs

/-- The guard of line 445, `len(data1) > 1 and len(data2) > 1`, on a pair of
group names. -/
def pairOK (t : RawTable) (pr : String × String) : Bool :=
  decide (1 < (seriesOf t pr.1).length) && decide (1 < (seriesOf t pr.2).length)

/-- The Welch row built for one pair (lines 446–459): pingouin's `T`,
`p-val` and `cohen-d` outputs on the two `dropna`'d samples, each rounded
to 4 digits. -/
def welchRowOf (K : StatKernels) (t : RawTable) (pr : String × String) : TestRow :=
  .welch { group1 := pr.1, group2 := pr.2,
           tStat := round4 (K.ttest_T (seriesOf t pr.1) (seriesOf t pr.2)),
           pValue := round4 (K.ttest_p (seriesOf t pr.1) (seriesOf t pr.2)),
           cohensD := round4 (K.ttest_d (seriesOf t pr.1) (seriesOf t pr.2)) }

/-- The Mann-Whitney row built for one pair (lines 470–481). -/
def mwuRowOf (K : StatKernels) (t : RawTable) (pr : String × String) : TestRow :=
  .mwu { group1 := pr.1, group2 := pr.2,
         uStat := round4 (K.mwu_U (seriesOf t pr.1) (seriesOf t pr.2)),
         pValue := round4 (K.mwu_p (seriesOf t pr.1) (seriesOf t pr.2)) }

/-- The Bayes row built for one pair in the Welch branch (lines 461–469):
`pg.bayesfactor_ttest(t_stat, nx=n1, ny=n2, alternative="two-sided")` on the
*unrounded* t-statistic and the two sample sizes, the factor rounded to 4
digits. -/
def bayesRowOf (K : StatKernels) (t : RawTable) (pr : String × String) : BayesRow :=
  { group1 := pr.1, group2 := pr.2,
    bayesFactor := round4 (K.bayesfactor_ttest
      (K.ttest_T (seriesOf t pr.1) (seriesOf t pr.2))
      (seriesOf t pr.1).length (seriesOf t pr.2).length) }

/-- The body of the pairwise loop (lines 438–481) over a list of candidate
pairs, building `ttest_results` and `bayes_results` together.  The script
appends to two mutable lists; the structural recursion produces the same two
lists in the same loop order.  The guard skips a pair silently; the Welch
branch appends one test row and one Bayes row, the Mann-Whitney branch only a
test row. -/
def pairwiseAux (K : StatKernels) (tt : TestType) (t : RawTable) :
    List (String × String) → List TestRow × List BayesRow
  | [] => ([], [])
  | pr :: rest =>
    let tail := pairwiseAux K tt t rest
    if pairOK t pr then
      match tt with
      | .welch => (welchRowOf K t pr :: tail.1, bayesRowOf K t pr :: tail.2)
      | .mannWhitney => (mwuRowOf K t pr :: tail.1, tail.2)
    else tail

/-- `ttest_results` (lines 435, 453, 476): the pairwise-test table. -/
def ttest_results (K : StatKernels) (tt : TestType) (t : RawTable) : List TestRow :=
  (pairwiseAux K tt t (upairs (group_names t))).1

/-- `bayes_results` (lines 436, 465): the Bayes-factor table. -/
def bayes_results (K : StatKernels) (tt : TestType) (t : RawTable) : List BayesRow :=
  (pairwiseAux K tt t (upairs (group_names t))).2

/-- The pairs that pass the guard of line 445, in enumeration order — the
pairs actually compared. -/
def comparedPairs (t : RawTable) : List (String × String) :=
  (upairs (group_names t)).filter (pairOK t)

/-- String insertion into a sorted list (ascending). -/
def insertSorted (x : String) : List String → List String
  | [] => [x]
  | y :: ys => if x < y then x :: y :: ys else y :: insertSorted x ys

/-- Lexicographic string sort, modelling the sorted group keys of pandas
`groupby` (which sorts group labels by default). -/
def sortStrings (l : List String) : List String :=
  l.foldr insertSorted []

/-- `descriptive_stats = df_pd.groupby("Group")["Value"].describe()`
(line 404): one `describe` row per group, keyed and sorted by group label;
pandas `describe` skips missing values, so the kernel receives the
`dropna`'d sample. -/
def descriptive_stats (K : StatKernels) (t : RawTable) : List (String × DescRow) :=
  (sortStrings (group_names t)).map (fun g => (g, K.describe (seriesOf t g)))

-- ## The full render pass

/-- Everything one render pass of the script computes from the table: the
figure traces, then the four statistical tables. -/
structure PipelineOutput where
  figure : List GroupTraces
  descriptive : List (String × DescRow)
  normality : List NormRow
  ttest : List TestRow
  bayes : List BayesRow
deriving DecidableEq

/-- One full render pass over an uploaded table (lines 273–495): build the
figure (which can raise `NameError`, line 333), then the descriptive table,
then the normality table (which can raise from `stats.shapiro`, line 425),
then the pairwise loop.  An uncaught exception anywhere aborts the pass. -/
def runPipeline (K : StatKernels) (cfg : Config) (t : RawTable) (u : ℕ → ℕ → ℚ) :
    Except String PipelineOutput := do
  let fig ← buildFigure cfg t u
  let desc := descriptive_stats K t
  let norm ← normality_results K t
  let pw := pairwiseAux K cfg.test_type t (upairs (group_names t))
  Except.ok { figure := fig, descriptive := desc, normality := norm,
              ttest := pw.1, bayes := pw.2 }

/-- The deterministic part of a pass's output: all four statistical tables
and the non-jittered anchors, with only the random scatter positions
stripped. -/
def PipelineOutput.nonJittered (o : PipelineOutput) :
    List (Option ℚ × Option ℚ) × List (String × DescRow) × List NormRow ×
      List TestRow × List BayesRow :=
  (o.figure.map GroupTraces.nonJittered, o.descriptive, o.normality, o.ttest, o.bayes)

-- ## Concrete fixtures

deriving instance DecidableEq for Except

/-- A concrete kernel instantiation (every library statistic constantly 0)
used to evaluate the pipeline at concrete inputs.  The concrete facts proved
below concern only the control structure around the kernels — guards,
ordering, rounding plumbing, error propagation — which does not depend on
the kernels' numeric outputs. -/
def K₀ : StatKernels where
  shapiro_pvalue _ := 0
  anderson_crit2 _ := 0
  ttest_T _ _ := 0
  ttest_p _ _ := 0
  ttest_d _ _ := 0
  mwu_U _ _ := 0
  mwu_p _ _ := 0
  bayesfactor_ttest _ _ _ := 0
  describe _ := ⟨0, 0, 0, 0, 0, 0, 0, 0⟩

/-- Two columns: `A` with 3 values, `B` with a single value (too small for
Shapiro-Wilk). -/
def tSmall : RawTable := ⟨[("A", [some 1, some 2, some 3]), ("B", [some 1])]⟩

/-- One column whose only cell is missing. -/
def tMissing : RawTable := ⟨[("A", [none])]⟩

/-- One column with a single value. -/
def tOne : RawTable := ⟨[("A", [some 1])]⟩

/-- Two columns with two values each. -/
def tTwo : RawTable := ⟨[("A", [some 1, some 2]), ("B", [some 3, some 4])]⟩

/-- A concrete configuration matching the sidebar defaults: spacing 1,
violin-box gap 0, box-points gap 0.2, jitter width 0.2, all elements on,
violin facing left, Welch's test selected. -/
def exampleConfig : Config where
  group_spacing := 1
  violin_box_gap := 0
  box_points_gap := 1/5
  point_jitter := 1/5
  violin_on := true
  box_on := true
  points_on := true
  violin_direction := ViolinDirection.Left
  test_type := TestType.welch

-- ### Basic facts about the reshaper

theorem melt_nil : melt [] = [] := rfl

theorem melt_cons (c : Column) (cs : List Column) :
    melt (c :: cs) = c.2.map (fun v => (c.1, v)) ++ melt cs := by
  simp [melt]

/-- Every melted record's group name is one of the column names. -/
theorem melt_fst_mem {cols : List Column} {r : String × Cell}
    (h : r ∈ melt cols) : r.1 ∈ cols.map Prod.fst := by
  induction cols with
  | nil => simp [melt] at h
  | cons c cs ih =>
    rw [melt_cons] at h
    rcases List.mem_append.1 h with h1 | h2
    · rcases List.mem_map.1 h1 with ⟨v, _, hv⟩
      simp [← hv]
    · simp [ih h2]

theorem seriesFor_append (l₁ l₂ : List (String × Cell)) (g : String) :
    seriesFor (l₁ ++ l₂) g = seriesFor l₁ g ++ seriesFor l₂ g := by
  simp [seriesFor]

/-- A block of records all carrying group name `n` contributes its whole
value list to `seriesFor n`. -/
theorem seriesFor_own_block (n : String) (vs : List Cell) :
    seriesFor (vs.map (fun v => (n, v))) n = vs := by
  induction vs with
  | nil => rfl
  | cons v vs ih => simpa [seriesFor] using ih

/-- A block of records all carrying a different group name contributes
nothing. -/
theorem seriesFor_other_block {n g : String} (hne : n ≠ g) (vs : List Cell) :
    seriesFor (vs.map (fun v => (n, v))) g = [] := by
  induction vs with
  | nil => rfl
  | cons v vs ih => simp [seriesFor, hne]

/-- If a group name does not occur among a record list's names, its series is
empty. -/
theorem seriesFor_not_mem {recs : List (String × Cell)} {g : String}
    (h : ∀ r ∈ recs, r.1 ≠ g) : seriesFor recs g = [] := by
  induction recs with
  | nil => rfl
  | cons r rs ih =>
    have hr : r.1 ≠ g := h r (by simp)
    have := ih (fun x hx => h x (by simp [hx]))
    simp [seriesFor, hr]
    simpa [seriesFor] using this

/-- With distinct column names, selecting a kept column's group from the
melted records recovers exactly that column's cells, in order: one record per
cell, missing cells included. -/
theorem seriesFor_melt_eq {cols : List Column}
    (hnd : (cols.map Prod.fst).Nodup) {c : Column} (hc : c ∈ cols) :
    seriesFor (melt cols) c.1 = c.2 := by
  induction cols with
  | nil => simp at hc
  | cons d ds ih =>
    have hnd' : (ds.map Prod.fst).Nodup := (List.nodup_cons.1 hnd).2
    have hdnot : d.1 ∉ ds.map Prod.fst := (List.nodup_cons.1 hnd).1
    rw [melt_cons, seriesFor_append]
    rcases List.mem_cons.1 hc with rfl | hmem
    · rw [seriesFor_own_block]
      have : seriesFor (melt ds) c.1 = [] := by
        apply seriesFor_not_mem
        intro r hr hrg
        exact hdnot (hrg ▸ melt_fst_mem hr)
      simp [this]
    · have hne : d.1 ≠ c.1 := by
        intro h
        exact hdnot (h ▸ List.mem_map_of_mem Prod.fst hmem)
      rw [seriesFor_other_block hne, ih hnd' hmem]
      simp

/-- The melted output has exactly one record per cell of each kept column. -/
theorem melt_length (cols : List Column) :
    (melt cols).length = (cols.map (fun c => c.2.length)).sum := by
  induction cols with
  | nil => rfl
  | cons c cs ih => simp [melt_cons, ih]

-- ### Lemmas on the pair enumeration

theorem mem_upairs {l : List String} {a b : String} :
    (a, b) ∈ upairs l ↔ [a, b].Sublist l := by
  induction l with
  | nil => simp [upairs]
  | cons x xs ih =>
    simp only [upairs, List.mem_append, List.mem_map, Prod.mk.injEq]
    constructor
    · rintro (⟨y, hy, rfl, rfl⟩ | h)
      · exact (List.singleton_sublist.2 hy).cons₂ _
      · exact (ih.1 h).cons x
    · intro h
      cases h with
      | cons c h' => exact Or.inr (ih.2 h')
      | cons₂ c h' => exact Or.inl ⟨b, List.singleton_sublist.1 h', rfl, rfl⟩

theorem upairs_length (l : List String) :
    (upairs l).length = Nat.choose l.length 2 := by
  induction l with
  | nil => rfl
  | cons x xs ih =>
    simp [upairs, ih, Nat.choose_succ_succ, Nat.choose_one_right]

theorem mem_of_mem_upairs {l : List String} {a b : String}
    (h : (a, b) ∈ upairs l) : a ∈ l ∧ b ∈ l := by
  have hs := mem_upairs.1 h
  exact ⟨hs.subset (by simp), hs.subset (by simp)⟩

theorem ne_of_mem_upairs {l : List String} (hnd : l.Nodup) {a b : String}
    (h : (a, b) ∈ upairs l) : a ≠ b := by
  have hs := mem_upairs.1 h
  have : ([a, b] : List String).Nodup := hs.nodup hnd
  simpa using (List.nodup_cons.1 this).1

theorem not_sublist_pair_swap {l : List String} (hnd : l.Nodup) {a b : String}
    (hab : a ≠ b) (h1 : [a, b].Sublist l) (h2 : [b, a].Sublist l) : False := by
  induction l with
  | nil => simp at h1
  | cons x xs ih =>
    rcases List.nodup_cons.1 hnd with ⟨hx, hxs⟩
    cases h1 with
    | cons c h1' =>
      cases h2 with
      | cons d h2' => exact ih hxs h1' h2'
      | cons₂ d h2' =>
        have : b ∈ xs := h1'.subset (by simp)
        exact hx this
    | cons₂ c h1' =>
      cases h2 with
      | cons d h2' =>
        have : a ∈ xs := h2'.subset (by simp)
        exact hx this
      | cons₂ d h2' => exact hab rfl

theorem swap_not_mem_upairs {l : List String} (hnd : l.Nodup) {a b : String}
    (h : (a, b) ∈ upairs l) : (b, a) ∉ upairs l := by
  intro h'
  exact not_sublist_pair_swap hnd (ne_of_mem_upairs hnd h)
    (mem_upairs.1 h) (mem_upairs.1 h')

theorem upairs_nodup {l : List String} (hnd : l.Nodup) : (upairs l).Nodup := by
  induction l with
  | nil => simp [upairs]
  | cons x xs ih =>
    rcases List.nodup_cons.1 hnd with ⟨hx, hxs⟩
    refine List.Nodup.append ?_ (ih hxs) ?_
    · exact hxs.map (fun y z h => congrArg Prod.snd h)
    · intro p hp hp'
      rcases List.mem_map.1 hp with ⟨y, _, rfl⟩
      exact hx (mem_of_mem_upairs hp').1

theorem exists_upair_containing {l : List String} {g : String}
    (hg : g ∈ l) (hl : 2 ≤ l.length) :
    ∃ pr ∈ upairs l, pr.1 = g ∨ pr.2 = g := by
  cases l with
  | nil => simp at hg
  | cons x xs =>
    rcases List.mem_cons.1 hg with rfl | hmem
    · cases xs with
      | nil => simp at hl
      | cons y ys =>
        exact ⟨(g, y), List.mem_append_left _ (by simp), Or.inl rfl⟩
    · exact ⟨(x, g), List.mem_append_left _ (List.mem_map_of_mem _ hmem),
        Or.inr rfl⟩

-- ### The pairwise loop, characterized

theorem pairwiseAux_welch_eq (K : StatKernels) (t : RawTable)
    (ps : List (String × String)) :
    pairwiseAux K TestType.welch t ps =
      ((ps.filter (pairOK t)).map (welchRowOf K t),
       (ps.filter (pairOK t)).map (bayesRowOf K t)) := by
  induction ps with
  | nil => rfl
  | cons pr rest ih =>
    by_cases h : pairOK t pr
    · simp [pairwiseAux, h, ih]
    · simp [pairwiseAux, h, ih]

theorem pairwiseAux_mwu_eq (K : StatKernels) (t : RawTable)
    (ps : List (String × String)) :
    pairwiseAux K TestType.mannWhitney t ps =
      ((ps.filter (pairOK t)).map (mwuRowOf K t), []) := by
  induction ps with
  | nil => rfl
  | cons pr rest ih =>
    by_cases h : pairOK t pr
    · simp [pairwiseAux, h, ih]
    · simp [pairwiseAux, h, ih]

theorem ttest_results_welch_eq (K : StatKernels) (t : RawTable) :
    ttest_results K TestType.welch t = (comparedPairs t).map (welchRowOf K t) := by
  simp [ttest_results, comparedPairs, pairwiseAux_welch_eq]

theorem ttest_results_mwu_eq (K : StatKernels) (t : RawTable) :
    ttest_results K TestType.mannWhitney t = (comparedPairs t).map (mwuRowOf K t) := by
  simp [ttest_results, comparedPairs, pairwiseAux_mwu_eq]

theorem bayes_results_welch_eq (K : StatKernels) (t : RawTable) :
    bayes_results K TestType.welch t = (comparedPairs t).map (bayesRowOf K t) := by
  simp [bayes_results, comparedPairs, pairwiseAux_welch_eq]

theorem bayes_results_mwu_eq (K : StatKernels) (t : RawTable) :
    bayes_results K TestType.mannWhitney t = [] := by
  simp [bayes_results, pairwiseAux_mwu_eq]

theorem ttest_results_groups (K : StatKernels) (tt : TestType) (t : RawTable) :
    (ttest_results K tt t).map TestRow.groups = comparedPairs t := by
  cases tt with
  | welch =>
    rw [ttest_results_welch_eq, List.map_map]
    exact List.map_congr_left (fun pr _ => rfl) |>.trans (List.map_id _)
  | mannWhitney =>
    rw [ttest_results_mwu_eq, List.map_map]
    exact List.map_congr_left (fun pr _ => rfl) |>.trans (List.map_id _)

theorem uniqueAux_subset {l seen : List String} {y : String}
    (h : y ∈ uniqueAux seen l) : y ∈ l := by
  induction l generalizing seen with
  | nil => simp [uniqueAux] at h
  | cons x xs ih =>
    rw [uniqueAux] at h
    by_cases hx : x ∈ seen
    · simp only [if_pos hx] at h
      exact List.mem_cons_of_mem x (ih h)
    · simp only [if_neg hx] at h
      rcases List.mem_cons.1 h with rfl | h2
      · simp
      · exact List.mem_cons_of_mem x (ih h2)

theorem uniqueAux_nodup_notin (l : List String) : ∀ seen : List String,
    (uniqueAux seen l).Nodup ∧ ∀ y ∈ uniqueAux seen l, y ∉ seen := by
  induction l with
  | nil => intro seen; simp [uniqueAux]
  | cons x xs ih =>
    intro seen
    rw [uniqueAux]
    by_cases hx : x ∈ seen
    · simpa [if_pos hx] using ih seen
    · rw [if_neg hx]
      obtain ⟨hnd, hnotin⟩ := ih (x :: seen)
      refine ⟨List.nodup_cons.2 ⟨fun hmem => hnotin x hmem (by simp), hnd⟩, ?_⟩
      intro y hy
      rcases List.mem_cons.1 hy with rfl | hy2
      · exact hx
      · exact fun hse => hnotin y hy2 (List.mem_cons_of_mem x hse)

/-- `unique()` returns a duplicate-free list. -/
theorem uniqueKeepFirst_nodup (l : List String) : (uniqueKeepFirst l).Nodup :=
  (uniqueAux_nodup_notin l []).1

/-- Values already seen are skipped: a replicated block of a seen value
contributes nothing. -/
theorem uniqueAux_skip_replicate {a : String} {seen : List String}
    (ha : a ∈ seen) (n : ℕ) (rest : List String) :
    uniqueAux seen (List.replicate n a ++ rest) = uniqueAux seen rest := by
  induction n with
  | zero => rw [List.replicate_zero, List.nil_append]
  | succ n ih =>
    rw [List.replicate_succ, List.cons_append, uniqueAux, if_pos ha, ih]

/-- A melted record list's group-name column consists only of the source
column names. -/
theorem map_fst_melt_block (c : Column) :
    (c.2.map (fun v => (c.1, v))).map Prod.fst = List.replicate c.2.length c.1 := by
  induction c.2 with
  | nil => rfl
  | cons v vs ih => simp [List.replicate_succ]

theorem uniqueAux_melt {cols : List Column}
    (hnd : (cols.map Prod.fst).Nodup) (hne : ∀ c ∈ cols, c.2 ≠ []) :
    ∀ seen : List String, (∀ c ∈ cols, c.1 ∉ seen) →
      uniqueAux seen ((melt cols).map Prod.fst) = cols.map Prod.fst := by
  induction cols with
  | nil => intro seen _; rfl
  | cons c cs ih =>
    intro seen hseen
    rcases List.nodup_cons.1 hnd with ⟨hc, hcs⟩
    rw [melt_cons, List.map_append, map_fst_melt_block]
    obtain ⟨m, hm⟩ := Nat.exists_eq_succ_of_ne_zero
      (Nat.pos_iff_ne_zero.1 (List.length_pos.2 (hne c (by simp))))
    rw [hm, List.replicate_succ, List.cons_append, uniqueAux,
      if_neg (hseen c (by simp)),
      uniqueAux_skip_replicate (by simp) m,
      ih hcs (fun d hd => hne d (by simp [hd])) (c.1 :: seen) ?_]
    · simp
    · intro d hd
      simp only [List.mem_cons]
      push_neg
      refine ⟨?_, fun hds => hseen d (by simp [hd]) hds⟩
      intro hdc
      exact hc (hdc ▸ List.mem_map_of_mem Prod.fst hd)

/-- With duplicate-free column names and at least one cell per column,
`df_pd["Group"].unique()` is exactly the kept column names, in column
order — the group order of every downstream table and of the plot. -/
theorem uniqueKeepFirst_melt {cols : List Column}
    (hnd : (cols.map Prod.fst).Nodup) (hne : ∀ c ∈ cols, c.2 ≠ []) :
    uniqueKeepFirst ((melt cols).map Prod.fst) = cols.map Prod.fst :=
  uniqueAux_melt hnd hne [] (by simp)

theorem group_names_eq {t : RawTable}
    (hnd : ((keptColumns t).map Prod.fst).Nodup)
    (hne : ∀ c ∈ keptColumns t, c.2 ≠ []) :
    group_names t = (keptColumns t).map Prod.fst := by
  unfold group_names df_melted
  exact uniqueKeepFirst_melt hnd hne

/-- `group_names` is always duplicate-free (it comes from `unique()`). -/
theorem group_names_nodup (t : RawTable) : (group_names t).Nodup :=
  uniqueKeepFirst_nodup _

-- ### Lemmas on the figure loop

theorem exceptMap_ok {α β ε : Type} (l : List α) (f : α → Except ε β) (g : α → β)
    (h : ∀ a ∈ l, f a = Except.ok (g a)) : exceptMap f l = Except.ok (l.map g) := by
  induction l with
  | nil => rfl
  | cons x xs ih =>
    simp [exceptMap, h x (by simp), ih (fun a ha => h a (by simp [ha]))]

theorem exceptMap_error_head {α β ε : Type} (x : α) (xs : List α)
    (f : α → Except ε β) (e : ε) (h : f x = Except.error e) :
    exceptMap f (x :: xs) = Except.error e := by
  simp [exceptMap, h]

/-- One loop iteration when the violin element is enabled: `side` is
assigned, so the iteration succeeds unconditionally, anchoring the violin at
`x_base`, the box (if enabled) at `x_base + violin_box_gap`, and the points
(if enabled) at the jittered offsets. -/
theorem buildGroupTraces_violin_on {cfg : Config} (hv : cfg.violin_on = true)
    (x : ℚ) (n : ℕ) (u : ℕ → ℚ) :
    buildGroupTraces cfg x n u = Except.ok
      { violin_x := some x,
        box_x := if cfg.box_on then some (x + cfg.violin_box_gap) else none,
        points_x := if cfg.points_on then
          some ((List.range n).map (fun k =>
            x + cfg.violin_box_gap +
              cfg.box_points_gap * ((jitter_direction (side cfg.violin_direction) : ℤ) : ℚ) +
              cfg.point_jitter * (u k - 1/2)))
          else none } := by
  unfold buildGroupTraces
  cases hp : cfg.points_on <;> simp [hv, hp]

/-- One loop iteration with the violin disabled but points enabled: the
local `side` was never assigned, so reading it at line 333 raises. -/
theorem buildGroupTraces_nameError {cfg : Config} (hv : cfg.violin_on = false)
    (hp : cfg.points_on = true) (x : ℚ) (n : ℕ) (u : ℕ → ℚ) :
    buildGroupTraces cfg x n u =
      Except.error "NameError: name side is not defined" := by
  unfold buildGroupTraces
  simp [hv, hp]

theorem group_positions_length (t : RawTable) (s : ℚ) :
    (group_positions t s).length = (group_names t).length := by
  unfold group_positions
  rw [List.length_map, List.length_range]

theorem group_positions_getD (t : RawTable) (s : ℚ) {i : ℕ}
    (h : i < (group_names t).length) :
    (group_positions t s).getD i 0 = (i : ℚ) * s := by
  unfold group_positions
  have hlen : i < ((List.range (group_names t).length).map
      (fun i : ℕ => (i : ℚ) * s)).length := by
    rw [List.length_map, List.length_range]
    exact h
  rw [List.getD_eq_getElem _ _ hlen, List.getElem_map, List.getElem_range]

theorem fst_lt_of_mem_enum {α : Type} {l : List α} {gi : ℕ × α}
    (h : gi ∈ l.enum) : gi.1 < l.length := by
  have h2 := List.mem_enum_iff_getElem?.1 h
  obtain ⟨hlt, -⟩ := List.getElem?_eq_some.1 h2
  exact hlt

/-- The whole plotting loop when the violin element is enabled: it succeeds,
producing one trace set per group in group order, group `i` anchored at
`i * group_spacing`. -/
theorem buildFigure_violin_on {cfg : Config} (hv : cfg.violin_on = true)
    (t : RawTable) (u : ℕ → ℕ → ℚ) :
    buildFigure cfg t u = Except.ok ((group_names t).enum.map (fun gi =>
      { violin_x := some ((gi.1 : ℚ) * cfg.group_spacing),
        box_x := if cfg.box_on then
          some ((gi.1 : ℚ) * cfg.group_spacing + cfg.violin_box_gap) else none,
        points_x := if cfg.points_on then
          some ((List.range (seriesFor (df_melted t) gi.2).length).map (fun k =>
            (gi.1 : ℚ) * cfg.group_spacing + cfg.violin_box_gap +
              cfg.box_points_gap * ((jitter_direction (side cfg.violin_direction) : ℤ) : ℚ) +
              cfg.point_jitter * (u gi.1 k - 1/2)))
          else none })) := by
  apply exceptMap_ok
  intro gi hgi
  rw [buildGroupTraces_violin_on hv,
    group_positions_getD t cfg.group_spacing (fst_lt_of_mem_enum hgi)]

/-- The whole plotting loop with violin disabled, points enabled and at
least one group: the first iteration already raises `NameError`. -/
theorem buildFigure_nameError {cfg : Config} (hv : cfg.violin_on = false)
    (hp : cfg.points_on = true) {t : RawTable} (hne : group_names t ≠ [])
    (u : ℕ → ℕ → ℚ) :
    buildFigure cfg t u =
      Except.error "NameError: name side is not defined" := by
  unfold buildFigure
  cases hgn : group_names t with
  | nil => exact absurd hgn hne
  | cons g gs =>
    rw [List.enum_cons]
    exact exceptMap_error_head _ _ _ _ (buildGroupTraces_nameError hv hp _ _ _)

-- ### Lemmas on the normality pass

theorem normality_row_ok {K : StatKernels} {t : RawTable} {g : String}
    (h : 3 ≤ (seriesOf t g).length) :
    normality_row K t g = Except.ok
      { group := g, shapiroWilkP := round4 (K.shapiro_pvalue (seriesOf t g)),
        andersonDarlingP := round4 (K.anderson_crit2 (seriesOf t g)) } := by
  unfold normality_row shapiro
  simp [Nat.not_lt.2 h]
  rfl

theorem normality_row_error {K : StatKernels} {t : RawTable} {g : String}
    (h : (seriesOf t g).length < 3) :
    normality_row K t g = Except.error "Data must be at least length 3." := by
  unfold normality_row shapiro
  simp [h]
  rfl

/-- When every group's non-missing sample has at least 3 values, the
normality pass succeeds with one row per group, in group order. -/
theorem normality_results_ok {K : StatKernels} {t : RawTable}
    (h : ∀ g ∈ group_names t, 3 ≤ (seriesOf t g).length) :
    normality_results K t = Except.ok ((group_names t).map (fun g =>
      { group := g, shapiroWilkP := round4 (K.shapiro_pvalue (seriesOf t g)),
        andersonDarlingP := round4 (K.anderson_crit2 (seriesOf t g)) })) := by
  apply exceptMap_ok
  intro g hg
  exact normality_row_ok (h g hg)

/-- When some group's non-missing sample has fewer than 3 values, the whole
normality pass is aborted by the uncaught `ValueError` from `stats.shapiro`:
no row of any group survives. -/
theorem normality_results_error {K : StatKernels} {t : RawTable}
    (h : ∃ g ∈ group_names t, (seriesOf t g).length < 3) :
    normality_results K t = Except.error "Data must be at least length 3." := by
  unfold normality_results
  generalize hgn : group_names t = l at h ⊢
  clear hgn
  induction l with
  | nil => simp at h
  | cons x xs ih =>
    by_cases hx : (seriesOf t x).length < 3
    · exact exceptMap_error_head _ _ _ _ (normality_row_error hx)
    · obtain ⟨g, hg, hglen⟩ := h
      have hgxs : g ∈ xs := by
        rcases List.mem_cons.1 hg with rfl | hmem
        · exact absurd hglen hx
        · exact hmem
      rw [exceptMap, normality_row_ok (Nat.not_lt.1 hx), ih ⟨g, hgxs, hglen⟩]

-- ### The random source never influences the statistical tables

theorem buildGroupTraces_map_nonJittered (cfg : Config) (x : ℚ) (n : ℕ)
    (u₁ u₂ : ℕ → ℚ) :
    (buildGroupTraces cfg x n u₁).map GroupTraces.nonJittered =
      (buildGroupTraces cfg x n u₂).map GroupTraces.nonJittered := by
  unfold buildGroupTraces
  cases hv : cfg.violin_on <;> cases hp : cfg.points_on <;>
    simp [hv, hp, Except.map, GroupTraces.nonJittered]

theorem exceptMap_map_eq {α β γ ε : Type} {l : List α} {f g : α → Except ε β}
    {m : β → γ}
    (h : ∀ a ∈ l, (f a).map m = (g a).map m) :
    (exceptMap f l).map (List.map m) = (exceptMap g l).map (List.map m) := by
  induction l with
  | nil => rfl
  | cons x xs ih =>
    have hx := h x (by simp)
    have ih' := ih (fun a ha => h a (by simp [ha]))
    rw [exceptMap, exceptMap]
    cases hfx : f x <;> cases hgx : g x <;>
      rw [hfx, hgx] at hx <;> simp [Except.map] at hx ⊢
    · exact hx
    · cases hm1 : exceptMap f xs <;> cases hm2 : exceptMap g xs <;>
        rw [hm1, hm2] at ih' <;> simp [Except.map] at ih' ⊢
      · exact ih'
      · simp [hx, ih']

theorem buildFigure_map_nonJittered (cfg : Config) (t : RawTable)
    (u₁ u₂ : ℕ → ℕ → ℚ) :
    (buildFigure cfg t u₁).map (List.map GroupTraces.nonJittered) =
      (buildFigure cfg t u₂).map (List.map GroupTraces.nonJittered) := by
  unfold buildFigure
  exact exceptMap_map_eq (fun gi _ => buildGroupTraces_map_nonJittered ..)

theorem except_bind_ok {α β ε : Type} (a : α) (f : α → Except ε β) :
    (Except.ok a >>= f) = f a := rfl

theorem except_bind_error {α β ε : Type} (e : ε) (f : α → Except ε β) :
    ((Except.error e : Except ε α) >>= f) = Except.error e := rfl

theorem except_map_ok {α β ε : Type} (m : α → β) (a : α) :
    (Except.ok a : Except ε α).map m = Except.ok (m a) := rfl

theorem except_map_error {α β ε : Type} (m : α → β) (e : ε) :
    (Except.error e : Except ε α).map m = Except.error e := rfl

/-- Two full passes over the same table and configuration agree on
everything except the jittered point positions, whatever the two random
sources are: the random jitter draws never reach the statistical tables or
the non-jittered anchors, and whether the pass aborts (and with which
error) is also independent of the draws. -/
theorem runPipeline_map_nonJittered (K : StatKernels) (cfg : Config)
    (t : RawTable) (u₁ u₂ : ℕ → ℕ → ℚ) :
    (runPipeline K cfg t u₁).map PipelineOutput.nonJittered =
      (runPipeline K cfg t u₂).map PipelineOutput.nonJittered := by
  unfold runPipeline
  have hfig := buildFigure_map_nonJittered cfg t u₁ u₂
  cases h1 : buildFigure cfg t u₁ with
  | error e₁ =>
    cases h2 : buildFigure cfg t u₂ with
    | error e₂ =>
      rw [h1, h2] at hfig
      simp only [except_map_error, Except.error.injEq] at hfig
      rw [except_bind_error, except_bind_error, except_map_error,
        except_map_error, hfig]
    | ok f₂ =>
      rw [h1, h2] at hfig
      exact absurd hfig (by simp [except_map_error, except_map_ok])
  | ok f₁ =>
    cases h2 : buildFigure cfg t u₂ with
    | error e₂ =>
      rw [h1, h2] at hfig
      exact absurd hfig (by simp [except_map_error, except_map_ok])
    | ok f₂ =>
      rw [h1, h2] at hfig
      simp only [except_map_ok, Except.ok.injEq] at hfig
      rw [except_bind_ok, except_bind_ok]
      cases hn : normality_results K t with
      | error e => rw [except_bind_error, except_bind_error]
      | ok rows =>
        rw [except_bind_ok, except_bind_ok, except_map_ok, except_map_ok]
        simp [PipelineOutput.nonJittered, hfig]

-- ## The claims

/-- C1 (counterexample): the claimed error policy does not hold.  On a table
whose group `A` has 3 values (Shapiro-Wilk would succeed) and whose group `B`
has 1 value (Shapiro-Wilk raises), the normality pass is not reduced to a
warning and an omitted row: the uncaught exception aborts the whole pass, and
even group `A`'s row is lost. -/
theorem C1_counterexample :
    normality_results K₀ tSmall =
      Except.error "Data must be at least length 3." := by
  decide

/-- C1 (amended): per-group normality failures are NOT caught.  Whenever any
group's non-missing sample has fewer than 3 values, the `ValueError` raised
by `stats.shapiro` propagates out of the loop: the whole normality pass
aborts with that error and produces no rows at all, including the rows of
groups whose computation would have succeeded.  (The pairwise loop never
reaches a too-small sample only because of the explicit `len > 1` guard,
which skips such pairs silently, with no warning.) -/
theorem C1_normality_failure_aborts_pass (K : StatKernels) (t : RawTable)
    (h : ∃ g ∈ group_names t, (seriesOf t g).length < 3) :
    normality_results K t = Except.error "Data must be at least length 3." :=
  normality_results_error h

/-- C1 (witness): the amended claim at the concrete table `tSmall`. -/
theorem C1_witness :
    normality_results K₀ tSmall =
      Except.error "Data must be at least length 3." :=
  C1_normality_failure_aborts_pass K₀ tSmall ⟨"B", by decide, by decide⟩

/-- C2 (counterexample): reshaping does NOT skip missing cells.  On a table
whose single column `A` consists of one missing cell, the melted long-form
output has one record — carrying the missing value — and the group series of
`A` has length 1, not 0. -/
theorem C2_counterexample :
    df_melted tMissing = [("A", none)] ∧
    (seriesFor (df_melted tMissing) "A").length = 1 := by
  decide

/-- C2 (amended): reshaping emits exactly one `(group, value)` record per
cell of each kept column, missing cells included (the melted series of a
column is the column's cell list verbatim, and the melted output's total
length is the total cell count); missing values are only removed downstream,
by each consumer's `dropna`, under which an all-missing column does become
an empty sample. -/
theorem C2_melt_keeps_missing (t : RawTable)
    (hnd : ((keptColumns t).map Prod.fst).Nodup)
    (c : Column) (hc : c ∈ keptColumns t) :
    seriesFor (df_melted t) c.1 = c.2 ∧
    (df_melted t).length = ((keptColumns t).map (fun d => d.2.length)).sum ∧
    dropna (seriesFor (df_melted t) c.1) = dropna c.2 := by
  exact ⟨seriesFor_melt_eq hnd hc, melt_length _,
    congrArg dropna (seriesFor_melt_eq hnd hc)⟩

/-- C2 (witness): the amended claim at the concrete all-missing table. -/
theorem C2_witness :
    seriesFor (df_melted tMissing) "A" = [(none : Cell)] ∧
    (df_melted tMissing).length =
      ((keptColumns tMissing).map (fun d => d.2.length)).sum ∧
    dropna (seriesFor (df_melted tMissing) "A") = dropna [(none : Cell)] :=
  C2_melt_keeps_missing tMissing (by decide) ("A", [none]) (by decide)

/-- C3: on a table with duplicate-free column names and at least one row,
the groups are exactly the kept columns, in column order (no reordering by
value); the layout produces one anchor set per group; the violin anchor of
the `i`-th group is `i * group_spacing`; and for every group the box anchor
exceeds the violin anchor by exactly `violin_box_gap`. -/
theorem C3_one_anchor_set_per_group (t : RawTable) (cfg : Config)
    (hnd : ((keptColumns t).map Prod.fst).Nodup)
    (hne : ∀ c ∈ keptColumns t, c.2 ≠ [])
    (hv : cfg.violin_on = true) (hb : cfg.box_on = true) (u : ℕ → ℕ → ℚ) :
    group_names t = (keptColumns t).map Prod.fst ∧
    (group_positions t cfg.group_spacing).length = (keptColumns t).length ∧
    (∀ i, i < (group_names t).length →
      (group_positions t cfg.group_spacing).getD i 0 = (i : ℚ) * cfg.group_spacing) ∧
    ∃ fig, buildFigure cfg t u = Except.ok fig ∧
      fig.length = (keptColumns t).length ∧
      ∀ i, i < fig.length → ∃ v b,
        (fig.getD i default).violin_x = some v ∧
        (fig.getD i default).box_x = some b ∧
        v = (i : ℚ) * cfg.group_spacing ∧
        b - v = cfg.violin_box_gap := by
  have hgn := group_names_eq hnd hne
  refine ⟨hgn, ?_, fun i hi => group_positions_getD t cfg.group_spacing hi, ?_⟩
  · rw [group_positions_length, hgn, List.length_map]
  · refine ⟨_, buildFigure_violin_on hv t u, ?_, ?_⟩
    · rw [List.length_map, List.enum_length, hgn, List.length_map]
    · intro i hi
      rw [List.length_map, List.enum_length] at hi
      refine ⟨(i : ℚ) * cfg.group_spacing,
        (i : ℚ) * cfg.group_spacing + cfg.violin_box_gap, ?_, ?_, rfl, by ring⟩
      · rw [List.getD_eq_getElem _ _ (by simpa using hi), List.getElem_map,
          List.getElem_enum]
      · rw [List.getD_eq_getElem _ _ (by simpa using hi), List.getElem_map,
          List.getElem_enum]
        simp [hb]

/-- C3 (witness): on the two-column table `tTwo` with the default
configuration, the groups are the columns in order. -/
theorem C3_witness :
    group_names tTwo = (keptColumns tTwo).map Prod.fst ∧
    (group_positions tTwo exampleConfig.group_spacing).length =
      (keptColumns tTwo).length :=
  ⟨(C3_one_anchor_set_per_group tTwo exampleConfig (by decide) (by decide)
      rfl rfl (fun _ _ => 0)).1,
   (C3_one_anchor_set_per_group tTwo exampleConfig (by decide) (by decide)
      rfl rfl (fun _ _ => 0)).2.1⟩

/-- C4 (counterexample): on a single-column table whose only group has just
one value, some group has fewer than 2 values, yet the pairwise pass emits
exactly `C(g,2) = C(1,2) = 0` rows — NOT strictly fewer than `C(g,2)`, as
the claim demands whenever "any group has < 2 values". -/
theorem C4_counterexample :
    (seriesOf tOne "A").length < 2 ∧
    (ttest_results K₀ TestType.welch tOne).length =
      Nat.choose (group_names tOne).length 2 := by
  decide

/-- C4 (amended): the pairwise pass emits one row per guard-passing pair of
the `i < j` enumeration, in enumeration order (row keys are exactly
`comparedPairs`); no emitted pair relates a group to itself; no pair appears
twice, in either orientation; the row count never exceeds `C(g,2)`; and —
provided there are at least 2 groups — it equals `C(g,2)` precisely when
every group has at least 2 non-missing values (so with `g ≥ 2`, any
too-small group makes the count strictly smaller). -/
theorem C4_pairwise_enumeration (K : StatKernels) (tt : TestType) (t : RawTable) :
    (ttest_results K tt t).map TestRow.groups = comparedPairs t ∧
    (∀ pr, pr ∈ comparedPairs t → pr.1 ≠ pr.2 ∧ (pr.2, pr.1) ∉ comparedPairs t) ∧
    (comparedPairs t).Nodup ∧
    (ttest_results K tt t).length ≤ Nat.choose (group_names t).length 2 ∧
    (2 ≤ (group_names t).length →
      ((ttest_results K tt t).length = Nat.choose (group_names t).length 2 ↔
        ∀ g ∈ group_names t, 2 ≤ (seriesOf t g).length)) := by
  have hnd := group_names_nodup t
  have hlen : (ttest_results K tt t).length = (comparedPairs t).length := by
    rw [← ttest_results_groups K tt t, List.length_map]
  refine ⟨ttest_results_groups K tt t, ?_, ?_, ?_, ?_⟩
  · intro pr hpr
    obtain ⟨a, b⟩ := pr
    have hmem := List.mem_filter.1 hpr |>.1
    refine ⟨ne_of_mem_upairs hnd hmem, fun hsw => ?_⟩
    exact swap_not_mem_upairs hnd hmem (List.mem_filter.1 hsw |>.1)
  · exact (upairs_nodup hnd).filter _
  · rw [hlen, ← upairs_length]
    exact List.length_filter_le _ _
  · intro h2
    rw [hlen]
    constructor
    · intro hcount g hg
      have hfull : comparedPairs t = upairs (group_names t) :=
        (List.filter_sublist _).eq_of_length (by rw [upairs_length]; exact hcount)
      obtain ⟨pr, hpr, hor⟩ := exists_upair_containing hg h2
      have hok : pairOK t pr = true := by
        have : pr ∈ comparedPairs t := hfull ▸ hpr
        exact List.mem_filter.1 this |>.2
      simp only [pairOK, Bool.and_eq_true, decide_eq_true_eq] at hok
      rcases hor with h | h
      · exact h ▸ hok.1
      · exact h ▸ hok.2
    · intro hall
      have : comparedPairs t = upairs (group_names t) := by
        apply List.filter_eq_self.2
        intro pr hpr
        obtain ⟨a, b⟩ := pr
        obtain ⟨ha, hb⟩ := mem_of_mem_upairs hpr
        simp only [pairOK, Bool.and_eq_true, decide_eq_true_eq]
        exact ⟨hall a ha, hall b hb⟩
      rw [this, upairs_length]

/-- C4 (witness): the amended claim at `tTwo` (two groups, two values each):
one row, keyed `(A, B)`, count `C(2,2) = 1`, no self- or swapped pair. -/
theorem C4_witness :
    (ttest_results K₀ TestType.welch tTwo).map TestRow.groups =
      comparedPairs tTwo ∧
    (("A", "B").1 ≠ ("A", "B").2 ∧ ("B", "A") ∉ comparedPairs tTwo) ∧
    (ttest_results K₀ TestType.welch tTwo).length =
      Nat.choose (group_names tTwo).length 2 :=
  ⟨(C4_pairwise_enumeration K₀ TestType.welch tTwo).1,
   (C4_pairwise_enumeration K₀ TestType.welch tTwo).2.1 ("A", "B") (by decide),
   ((C4_pairwise_enumeration K₀ TestType.welch tTwo).2.2.2.2 (by decide)).2
     (by decide)⟩

/-- C5: the jitter direction of the scatter points is a function of the
violin side alone: a left-facing violin (`side = "negative"`) pushes the
points in the positive direction, a right-facing violin (`side =
"positive"`) pushes them in the negative direction. -/
theorem C5_jitter_direction_from_side :
    jitter_direction (side ViolinDirection.Left) = 1 ∧
    jitter_direction (side ViolinDirection.Right) = -1 := by
  decide

/-- C6: with violin and points enabled, every point anchor is exactly
`boxAnchor + direction * box_points_gap + point_jitter * (U - 1/2)` for its
uniform draw `U` (the box anchor being `x_base + violin_box_gap`), and
therefore — for draws in `[0,1)` and a nonnegative jitter width — lies
within `point_jitter / 2` of the direction-shifted box anchor. -/
theorem C6_point_anchor_formula_and_bound (cfg : Config) (x_base : ℚ)
    (n : ℕ) (u : ℕ → ℚ)
    (hv : cfg.violin_on = true) (hp : cfg.points_on = true)
    (hw : 0 ≤ cfg.point_jitter)
    (hu : ∀ k, 0 ≤ u k ∧ u k < 1) :
    ∃ pts, (∃ tr, buildGroupTraces cfg x_base n u = Except.ok tr ∧
        tr.points_x = some pts) ∧
      pts = (List.range n).map (fun k =>
        (x_base + cfg.violin_box_gap) +
          cfg.box_points_gap * ((jitter_direction (side cfg.violin_direction) : ℤ) : ℚ) +
          cfg.point_jitter * (u k - 1/2)) ∧
      ∀ x ∈ pts,
        |x - ((x_base + cfg.violin_box_gap) +
          cfg.box_points_gap * ((jitter_direction (side cfg.violin_direction) : ℤ) : ℚ))|
          ≤ cfg.point_jitter / 2 := by
  refine ⟨_, ⟨_, buildGroupTraces_violin_on hv x_base n u, by simp [hp]⟩, rfl, ?_⟩
  intro x hx
  obtain ⟨k, hk, rfl⟩ := List.mem_map.1 hx
  obtain ⟨h0, h1⟩ := hu k
  have habs : |u k - 1/2| ≤ 1/2 := abs_le.2 ⟨by linarith, by linarith⟩
  have : (x_base + cfg.violin_box_gap) +
      cfg.box_points_gap * ((jitter_direction (side cfg.violin_direction) : ℤ) : ℚ) +
      cfg.point_jitter * (u k - 1/2) -
      ((x_base + cfg.violin_box_gap) +
        cfg.box_points_gap * ((jitter_direction (side cfg.violin_direction) : ℤ) : ℚ)) =
      cfg.point_jitter * (u k - 1/2) := by ring
  rw [this, abs_mul, abs_of_nonneg hw]
  calc cfg.point_jitter * |u k - 1/2|
      ≤ cfg.point_jitter * (1/2) := by
        exact mul_le_mul_of_nonneg_left habs hw
    _ = cfg.point_jitter / 2 := by ring

/-- C6 (witness): with the default configuration (left violin, gaps 0 and
0.2, jitter width 0.2), a point drawn at `U = 0` lands at `1/10`, within
`point_jitter / 2 = 1/10` of the shifted box anchor `1/5`. -/
theorem C6_witness :
    |(1/10 : ℚ) - (((0 : ℚ) + exampleConfig.violin_box_gap) +
      exampleConfig.box_points_gap *
        ((jitter_direction (side exampleConfig.violin_direction) : ℤ) : ℚ))|
      ≤ exampleConfig.point_jitter / 2 := by
  obtain ⟨pts, ⟨tr, htr, hpx⟩, hpts, hbound⟩ :=
    C6_point_anchor_formula_and_bound exampleConfig 0 1 (fun _ => 0) rfl rfl
      (by norm_num [exampleConfig]) (fun k => ⟨le_refl 0, by norm_num⟩)
  refine hbound (1/10) ?_
  rw [hpts]
  simp only [show List.range 1 = [0] from rfl, List.map_cons, List.map_nil,
    List.mem_singleton]
  norm_num [exampleConfig, jitter_direction, side]

/-- C7: switching the selected test from Welch's t-test to the Mann-Whitney
U test changes only the shape of the emitted rows (`T-stat`/`Cohen's d`
columns versus `U-stat`): the emitted pair keys, their order and their count
are identical under the two selections. -/
theorem C7_test_switch_same_pairs (K : StatKernels) (t : RawTable) :
    (ttest_results K TestType.welch t).map TestRow.groups =
      (ttest_results K TestType.mannWhitney t).map TestRow.groups ∧
    (ttest_results K TestType.welch t).length =
      (ttest_results K TestType.mannWhitney t).length ∧
    ttest_results K TestType.welch t =
      (comparedPairs t).map (welchRowOf K t) ∧
    ttest_results K TestType.mannWhitney t =
      (comparedPairs t).map (mwuRowOf K t) := by
  refine ⟨?_, ?_, ttest_results_welch_eq K t, ttest_results_mwu_eq K t⟩
  · rw [ttest_results_groups, ttest_results_groups]
  · have h1 := congrArg List.length (ttest_results_groups K TestType.welch t)
    have h2 := congrArg List.length (ttest_results_groups K TestType.mannWhitney t)
    rw [List.length_map] at h1 h2
    rw [h1, h2]

/-- C8: a Bayes factor is produced if and only if Welch's t-test is
selected: under Mann-Whitney the Bayes table is empty, and under Welch's it
has exactly one row per compared pair, whose factor is
`pg.bayesfactor_ttest` applied to that pair's (unrounded) t-statistic and
the two sample sizes, rounded to 4 decimal digits. -/
theorem C8_bayes_iff_welch (K : StatKernels) (t : RawTable) :
    bayes_results K TestType.mannWhitney t = [] ∧
    bayes_results K TestType.welch t = (comparedPairs t).map (fun pr =>
      { group1 := pr.1, group2 := pr.2,
        bayesFactor := round4 (K.bayesfactor_ttest
          (K.ttest_T (seriesOf t pr.1) (seriesOf t pr.2))
          (seriesOf t pr.1).length (seriesOf t pr.2).length) }) :=
  ⟨bayes_results_mwu_eq K t, bayes_results_welch_eq K t⟩

/-- C9: the full pass is deterministic apart from the jitter draws — two
passes over the same table with the same configuration and kernels agree on
the descriptive, normality, pairwise and Bayes tables and on the
non-jittered violin/box anchors even when the random draws differ, so in
particular re-running with the randomness held fixed reproduces every table
and every non-jittered anchor exactly. -/
theorem C9_rerun_reproduces_tables (K : StatKernels) (cfg : Config)
    (t : RawTable) (u₁ u₂ : ℕ → ℕ → ℚ) :
    (runPipeline K cfg t u₁).map PipelineOutput.nonJittered =
      (runPipeline K cfg t u₂).map PipelineOutput.nonJittered :=
  runPipeline_map_nonJittered K cfg t u₁ u₂

/-- C10: with points enabled but the violin disabled, the plotting loop
reads the local `side` (line 333) before any assignment to it (line 302 is
guarded by `violin_on`), so on any table with at least one group the pass
aborts with an undefined-variable error and no point anchors are produced. -/
theorem C10_points_read_side_unassigned (cfg : Config) (t : RawTable)
    (u : ℕ → ℕ → ℚ) (hv : cfg.violin_on = false) (hp : cfg.points_on = true)
    (hne : group_names t ≠ []) :
    buildFigure cfg t u =
      Except.error "NameError: name side is not defined" :=
  buildFigure_nameError hv hp hne u

/-- C10 (witness): the failure at a concrete table and configuration. -/
theorem C10_witness :
    buildFigure { exampleConfig with violin_on := false } tTwo (fun _ _ => 0) =
      Except.error "NameError: name side is not defined" :=
  C10_points_read_side_unassigned _ tTwo (fun _ _ => 0) rfl rfl (by decide)

end RainCloud
